import Mathlib

/-!
Verification of the `lwm` memory reporter (src/main.rs) against its specification.

Modelling conventions (shallow embedding):
* Rust `&str` text is modelled as `List Char`; Rust `String` output likewise.
* Rust `u64` values are modelled as `Nat`; `u64::from_str` carries an explicit
  `< 2^64` overflow check; the wrapping release-mode subtraction in
  `lwm_attach_values` is modelled as arithmetic modulo `2^64` (`u64sub`).
* `f64` arithmetic in the converters (`to_bytes!`, `to_size!`,
  `lwm_conv_to_hbytes`) is idealised as exact real arithmetic followed by
  truncation; on the value ranges of the claims (below `2^53`) the two agree.
  The base-`unit` logarithm `size.log10() / unit.log10()` truncated to an
  index is modelled as the exact floor logarithm `floorLogAux`;
  `(x * 10.0).round() / 10.0` followed by ryu shortest formatting is modelled
  as the exact tenths value `(20 * size + d) / (2 * d)` rendered as
  `<integer part>.<tenths digit>`.
* A Rust panic (`unwrap` on a missing colon segment or a failed parse, and an
  index past the end of the suffix table) is modelled as `Option.none`:
  the program produces no output in those cases.
* Functions keep the names of the Rust functions they embed.
-/

/-! ## Characters and pieces of text -/

/-- ASCII fragment of Rust `char::is_whitespace` (Unicode `White_Space`):
`Char.isWhitespace` covers space, tab, CR, LF; Rust additionally treats
vertical tab and form feed (and non-ASCII code points, not modelled here)
as whitespace. -/
def isWs (c : Char) : Bool :=
  c.isWhitespace || c = '\x0b' || c = '\x0c'

/-- Split a character list at every occurrence of `sep` (like Rust
`str::split(sep)`); always returns at least one (possibly empty) segment. -/
def splitOnChar (sep : Char) : List Char → List (List Char)
  | [] => [[]]
  | c :: cs =>
    match splitOnChar sep cs with
    | [] => [[]]
    | a :: rest => if c = sep then [] :: a :: rest else (c :: a) :: rest

/-- Drop a single trailing carriage return, as Rust `str::lines` does for
`\r\n` line endings. -/
def stripCR (l : List Char) : List Char :=
  if l.getLast? = some '\r' then l.dropLast else l

/-- Rust `str::lines`: split on `'\n'`, strip one `'\r'` before each split
point, and do not produce a final empty line when the text ends with a
newline.  The final segment (no newline after it) keeps a trailing `'\r'`. -/
def rustLines (s : List Char) : List (List Char) :=
  if s = [] then []
  else
    let segs := splitOnChar '\n' s
    if segs.getLast? = some [] then (segs.dropLast).map stripCR
    else (segs.dropLast).map stripCR ++ [(segs.getLast?).getD []]

/-- Rust `str::trim_start` (on the modelled whitespace set). -/
def trimLeft (s : List Char) : List Char := s.dropWhile isWs

/-- Rust `str::trim_end` (on the modelled whitespace set). -/
def trimRight (s : List Char) : List Char := (s.reverse.dropWhile isWs).reverse

/-- Rust `str::trim`. -/
def trim (s : List Char) : List Char := trimRight (trimLeft s)

/-- Helper for `trimEndMatchesKB`: works on the reversed list and removes
every leading occurrence of the reversed pattern `"kB"`. -/
def dropKBrev : List Char → List Char
  | [] => []
  | [c] => [c]
  | c1 :: c2 :: rest => if c1 = 'B' ∧ c2 = 'k' then dropKBrev rest else c1 :: c2 :: rest

/-- Rust `str::trim_end_matches("kB")`: repeatedly remove a trailing
`"kB"`. -/
def trimEndMatchesKB (s : List Char) : List Char :=
  (dropKBrev s.reverse).reverse

/-- Rust `str::contains("kB")`. -/
def containsKB : List Char → Bool
  | [] => false
  | [_] => false
  | c1 :: c2 :: rest => if c1 = 'k' ∧ c2 = 'B' then true else containsKB (c2 :: rest)

/-- Decimal value of a digit string (most significant digit first). -/
def digitsVal (s : List Char) : Nat :=
  s.foldl (fun a c => a * 10 + (c.toNat - 48)) 0

/-- Digit-run acceptance of `u64::from_str`: nonempty, all ASCII digits,
value below `2^64`. -/
def parseU64core (t : List Char) : Option Nat :=
  if t ≠ [] ∧ t.all Char.isDigit ∧ digitsVal t < 2 ^ 64 then some (digitsVal t)
  else none

/-- Rust `str::parse::<u64>()`: an optional leading `'+'`, then a nonempty
run of ASCII digits whose value fits in 64 bits; anything else is an error
(`none`). -/
def parseU64 (s : List Char) : Option Nat :=
  parseU64core (if s.head? = some '+' then s.tail else s)

/-- Decimal rendering of a `Nat`, as Rust `format!` renders a `u64`. -/
def natStr (n : Nat) : List Char := Nat.toDigits 10 n

/-! ## Field extraction (`Lwm::lwm_get_value`, src/main.rs lines 176-192) -/

/-- The value piece the Rust loop body pushes for one matching line:
`e.split(':').nth(1)` (the segment between the first and the second colon),
then `trim_end_matches("kB").trim()` when the segment contains `"kB"`,
else `trim()`.  `none` models the `unwrap` panic when the line has no
colon at all. -/
def linePiece (line : List Char) : Option (List Char) :=
  match (splitOnChar ':' line).get? 1 with
  | none => none
  | some second =>
    some (if containsKB second then trim (trimEndMatchesKB second) else trim second)

/-- The `for_each` loop of `lwm_get_value`, threading the accumulated
`value` string (`none` once a panic has happened). -/
def extractLines (key : List Char) : List (List Char) → Option (List Char) → Option (List Char)
  | [], acc => acc
  | line :: rest, acc =>
    extractLines key rest
      (if key.isPrefixOf line then
        Option.bind acc (fun v => Option.map (fun p => v ++ p) (linePiece line))
      else acc)

/-- The accumulated `value` string after the scan of `lwm_get_value`. -/
def extractRaw (src key : List Char) : Option (List Char) :=
  extractLines key (rustLines src) (some [])

/-- `Lwm::lwm_get_value`: scan all lines, append the piece of every line
starting with `key` to `value`, then `value.parse::<u64>().unwrap()`
(`none` models the panic on a parse error or a missing colon). -/
def lwm_get_value (src key : List Char) : Option Nat :=
  Option.bind (extractRaw src key) parseU64

/-! ## The extraction algorithm as the claim states it

`claimGetValue` is modelled from the words of claim C1 / spec section 4.1,
for comparison with `lwm_get_value`: take the *last* matching line, split on
the colon and keep everything after the *first* colon, strip one trailing
`"kB"` token, trim, and parse. -/

/-- Everything after the first colon of a line (claim wording); `none` when
the line has no colon. -/
def afterFirstColon : List Char → Option (List Char)
  | [] => none
  | ':' :: t => some t
  | _ :: t => afterFirstColon t

/-- Strip one trailing `"kB"` if present (claim wording). -/
def stripKBOnce (s : List Char) : List Char :=
  match s.reverse with
  | 'B' :: 'k' :: r => r.reverse
  | _ => s

/-- Field extraction as claim C1 words it: the value of the last matching
line wins. -/
def claimGetValue (src key : List Char) : Option Nat :=
  match (List.filter (fun l => key.isPrefixOf l) (rustLines src)).getLast? with
  | none => none
  | some line => Option.bind (afterFirstColon line) (fun a => parseU64 (trim (stripKBOnce a)))

/-- `Option`-valued `map` over a list, failing if any element fails; used to
state the concatenation behaviour of the scan. -/
def optMapM (f : α → Option β) : List α → Option (List β)
  | [] => some []
  | a :: as =>
    Option.bind (f a) fun b => Option.bind (optMapM f as) fun bs => some (b :: bs)

/-! ## Unit constants (src/main.rs lines 28-41)

The Rust source labels the `TO_B .. TO_PB` family (factors of 1024) as the
"Binary system" and the `TO_KiB .. TO_PiB` family (factors of 1000) as the
"Decimal system"; the names are kept verbatim, values included. -/

def TO_B : Nat := 1
def TO_KB : Nat := 1024
def TO_MB : Nat := TO_KB * 1024
def TO_GB : Nat := TO_MB * 1024
def TO_TB : Nat := TO_GB * 1024
def TO_PB : Nat := TO_TB * 1024

def TO_KiB : Nat := 1000
def TO_MiB : Nat := TO_KiB * 1000
def TO_GiB : Nat := TO_MiB * 1000
def TO_TiB : Nat := TO_GiB * 1000
def TO_PiB : Nat := TO_TiB * 1000

/-- The `to_size!` macro: `($size as f64 * 1024.0) / ($nunit as f64)`,
truncated to `u64` by the caller (exact-arithmetic idealisation of the
`f64` division). -/
def to_size (size nunit : Nat) : Nat := size * 1024 / nunit

/-! ## Human-readable conversion (`lwm_conv_to_hbytes`, lines 214-235) -/

/-- Fuel-driven floor logarithm: `floorLogAux b fuel n` is `⌊log_b n⌋` for
`2 ≤ b` and `1 ≤ n < b ^ fuel`.  It models the `f64` computation
`size.log10() / unit.log10()` truncated toward zero; the fuel of `80` used
below covers every value reachable from a `u64` kibibyte count. -/
def floorLogAux (b : Nat) : Nat → Nat → Nat
  | 0, _ => 0
  | fuel + 1, n => if n < b then 0 else floorLogAux b fuel (n / b) + 1

/-- The suffix-table index `base.floor() as usize` chosen by
`lwm_conv_to_hbytes` for a positive byte count. -/
def hbSuffixIndex (binary : Bool) (size : Nat) : Nat :=
  floorLogAux (if binary then 1024 else 1000) 80 size

/-- The two six-entry suffix tables of `lwm_conv_to_hbytes`. -/
def hbSuffixes (binary : Bool) : List (List Char) :=
  if binary then ["B".data, "KiB".data, "MiB".data, "GiB".data, "TiB".data, "PiB".data]
  else ["B".data, "KB".data, "MB".data, "GB".data, "TB".data, "PB".data]

/-- `Lwm::lwm_conv_to_hbytes`: a non-positive size short-circuits to `"0B"`
before any logarithm; otherwise the displayed number is
`(unit^(base - base.floor()) * 10.0).round() / 10.0` — exactly the tenths
value `(20 * size + d) / (2 * d)` with `d = unit ^ ⌊base⌋` — rendered by ryu
as `<integer>.<tenths>`, and the suffix is `SUFFIX[base.floor() as usize]`.
`none` models the Rust index-out-of-bounds panic when the index is past the
six-entry table. -/
def lwm_conv_to_hbytes (size : Nat) (binary : Bool) : Option (List Char) :=
  if size = 0 then some "0B".data
  else
    let k := hbSuffixIndex binary size
    let d := (if binary then 1024 else 1000) ^ k
    let m := (20 * size + d) / (2 * d)
    match (hbSuffixes binary).get? k with
    | none => none
    | some suf => some (natStr (m / 10) ++ '.' :: natStr (m % 10) ++ suf)

/-! ## The snapshot record (struct `Lwm`, lines 44-86) -/

/-- Wrapping `u64` subtraction (release-mode `a - b` for `a, b < 2^64`). -/
def u64sub (a b : Nat) : Nat := (a + 2 ^ 64 - b) % 2 ^ 64

structure Lwm where
  mem_total : Nat
  mem_free : Nat
  mem_avail : Nat
  mem_used : Nat
  buffers : Nat
  cached : Nat
  swap_cached : Nat
  swap_total : Nat
  swap_free : Nat
  swap_used : Nat
  zswap : Nat
  zswapped : Nat
  shmem : Nat
  s_reclaimable : Nat
deriving DecidableEq

/-- `Lwm::lwm_attach_values` (lines 194-211), applied to the already-read
source text: extract every required key in source order and fill in the two
derived subtraction fields.  `none` models the panic of any failed
extraction, before any output happens. -/
def lwm_attach_values (src : List Char) : Option Lwm :=
  Option.bind (lwm_get_value src "MemTotal:".data) fun mem_total =>
  Option.bind (lwm_get_value src "MemFree:".data) fun mem_free =>
  Option.bind (lwm_get_value src "MemAvailable:".data) fun mem_avail =>
  let mem_used := u64sub mem_total mem_avail
  Option.bind (lwm_get_value src "Buffers:".data) fun buffers =>
  Option.bind (lwm_get_value src "Cached:".data) fun cached =>
  Option.bind (lwm_get_value src "SwapCached:".data) fun swap_cached =>
  Option.bind (lwm_get_value src "SwapFree:".data) fun swap_free =>
  Option.bind (lwm_get_value src "SwapTotal:".data) fun swap_total =>
  let swap_used := u64sub swap_total swap_free
  Option.bind (lwm_get_value src "Zswap:".data) fun zswap =>
  Option.bind (lwm_get_value src "Zswapped:".data) fun zswapped =>
  Option.bind (lwm_get_value src "Shmem:".data) fun shmem =>
  Option.bind (lwm_get_value src "SReclaimable:".data) fun s_reclaimable =>
  some ⟨mem_total, mem_free, mem_avail, mem_used, buffers, cached, swap_cached,
        swap_total, swap_free, swap_used, zswap, zswapped, shmem, s_reclaimable⟩

/-- The twelve extraction keys `lwm_attach_values` requires. -/
def requiredKeys : List (List Char) :=
  ["MemTotal:".data, "MemFree:".data, "MemAvailable:".data, "Buffers:".data,
   "Cached:".data, "SwapCached:".data, "SwapFree:".data, "SwapTotal:".data,
   "Zswap:".data, "Zswapped:".data, "Shmem:".data, "SReclaimable:".data]

/-! ## Report rendering (lines 237-402) -/

def WHITE_COLOR : List Char := "\x1b[1;37m".data
def END_COLOR : List Char := "\x1b[0m".data

/-- The three banner lines every `format!` template starts with. -/
def reportHeader : List Char :=
  "======================\n| Memory Information |\n======================".data

/-- The twelve field labels, in the fixed order every report uses. -/
def reportLabels : List (List Char) :=
  ["Total Memory".data, "Free Memory".data, "Avail Memory".data, "Used Memory".data,
   "Buffered".data, "Total Swap".data, "Free Swap".data, "Cached Swap".data,
   "Used Swap".data, "Total ZSwap".data, "Commit ZSwap".data, "Shared Memory".data]

/-- One `\n* <label>: <value>` line, with the label wrapped in the ANSI
bold-white escapes exactly when `color` is set (the only difference between
the colored and the plain `format!` templates). -/
def renderLine (color : Bool) (label value : List Char) : List Char :=
  "\n* ".data ++ (if color then WHITE_COLOR ++ label ++ END_COLOR else label) ++
    ": ".data ++ value

/-- Zip labels with values into report lines. -/
def renderLines (color : Bool) : List (List Char) → List (List Char) → List Char
  | label :: ls, v :: vs => renderLine color label v ++ renderLines color ls vs
  | _, _ => []

/-- A whole report, as the `format!` calls build it (the trailing newline
added by `println!` is not part of the string). -/
def renderReport (color : Bool) (vs : List (List Char)) : List Char :=
  reportHeader ++ renderLines color reportLabels vs

/-- The twelve snapshot fields in report order (`cached` and
`s_reclaimable` are extracted but never printed). -/
def fieldsList (lwm : Lwm) : List Nat :=
  [lwm.mem_total, lwm.mem_free, lwm.mem_avail, lwm.mem_used, lwm.buffers,
   lwm.swap_total, lwm.swap_free, lwm.swap_cached, lwm.swap_used,
   lwm.zswap, lwm.zswapped, lwm.shmem]

/-- `Lwm::lwm_print_all` (lines 237-336).  In friendly mode the byte count
handed to `lwm_conv_to_hbytes` is `field * unit` with
`unit = if is_binary { 1024.0 } else { 1000.0 }` (the `to_bytes!` macro),
and there are separate colored and plain templates; in non-friendly mode a
single template prints `to_bytes!(field, 1024.0) as u64` for every field
and `is_color` is never consulted (the template always carries the ANSI
escapes).  `none` models a panic inside a `lwm_conv_to_hbytes` argument. -/
def lwm_print_all (lwm : Lwm) (is_binary is_frndly is_color : Bool) : Option (List Char) :=
  let unit : Nat := if is_binary then 1024 else 1000
  if is_frndly then
    if is_color then
      match
        lwm_conv_to_hbytes (lwm.mem_total * unit) is_binary,
        lwm_conv_to_hbytes (lwm.mem_free * unit) is_binary,
        lwm_conv_to_hbytes (lwm.mem_avail * unit) is_binary,
        lwm_conv_to_hbytes (lwm.mem_used * unit) is_binary,
        lwm_conv_to_hbytes (lwm.buffers * unit) is_binary,
        lwm_conv_to_hbytes (lwm.swap_total * unit) is_binary,
        lwm_conv_to_hbytes (lwm.swap_free * unit) is_binary,
        lwm_conv_to_hbytes (lwm.swap_cached * unit) is_binary,
        lwm_conv_to_hbytes (lwm.swap_used * unit) is_binary,
        lwm_conv_to_hbytes (lwm.zswap * unit) is_binary,
        lwm_conv_to_hbytes (lwm.zswapped * unit) is_binary,
        lwm_conv_to_hbytes (lwm.shmem * unit) is_binary
      with
      | some v1, some v2, some v3, some v4, some v5, some v6, some v7, some v8,
        some v9, some v10, some v11, some v12 =>
          some (renderReport true [v1, v2, v3, v4, v5, v6, v7, v8, v9, v10, v11, v12])
      | _, _, _, _, _, _, _, _, _, _, _, _ => none
    else
      match
        lwm_conv_to_hbytes (lwm.mem_total * unit) is_binary,
        lwm_conv_to_hbytes (lwm.mem_free * unit) is_binary,
        lwm_conv_to_hbytes (lwm.mem_avail * unit) is_binary,
        lwm_conv_to_hbytes (lwm.mem_used * unit) is_binary,
        lwm_conv_to_hbytes (lwm.buffers * unit) is_binary,
        lwm_conv_to_hbytes (lwm.swap_total * unit) is_binary,
        lwm_conv_to_hbytes (lwm.swap_free * unit) is_binary,
        lwm_conv_to_hbytes (lwm.swap_cached * unit) is_binary,
        lwm_conv_to_hbytes (lwm.swap_used * unit) is_binary,
        lwm_conv_to_hbytes (lwm.zswap * unit) is_binary,
        lwm_conv_to_hbytes (lwm.zswapped * unit) is_binary,
        lwm_conv_to_hbytes (lwm.shmem * unit) is_binary
      with
      | some v1, some v2, some v3, some v4, some v5, some v6, some v7, some v8,
        some v9, some v10, some v11, some v12 =>
          some (renderReport false [v1, v2, v3, v4, v5, v6, v7, v8, v9, v10, v11, v12])
      | _, _, _, _, _, _, _, _, _, _, _, _ => none
  else
    some (renderReport true
      [natStr (lwm.mem_total * 1024), natStr (lwm.mem_free * 1024),
       natStr (lwm.mem_avail * 1024), natStr (lwm.mem_used * 1024),
       natStr (lwm.buffers * 1024), natStr (lwm.swap_total * 1024),
       natStr (lwm.swap_free * 1024), natStr (lwm.swap_cached * 1024),
       natStr (lwm.swap_used * 1024), natStr (lwm.zswap * 1024),
       natStr (lwm.zswapped * 1024), natStr (lwm.shmem * 1024)])

/-- `Lwm::lwm_print_to_size` (lines 338-402): every field as
`to_size!(field, size) as u64`, in a colored or a plain template. -/
def lwm_print_to_size (lwm : Lwm) (size : Nat) (is_color : Bool) : List Char :=
  if is_color then
    renderReport true
      [natStr (to_size lwm.mem_total size), natStr (to_size lwm.mem_free size),
       natStr (to_size lwm.mem_avail size), natStr (to_size lwm.mem_used size),
       natStr (to_size lwm.buffers size), natStr (to_size lwm.swap_total size),
       natStr (to_size lwm.swap_free size), natStr (to_size lwm.swap_cached size),
       natStr (to_size lwm.swap_used size), natStr (to_size lwm.zswap size),
       natStr (to_size lwm.zswapped size), natStr (to_size lwm.shmem size)]
  else
    renderReport false
      [natStr (to_size lwm.mem_total size), natStr (to_size lwm.mem_free size),
       natStr (to_size lwm.mem_avail size), natStr (to_size lwm.mem_used size),
       natStr (to_size lwm.buffers size), natStr (to_size lwm.swap_total size),
       natStr (to_size lwm.swap_free size), natStr (to_size lwm.swap_cached size),
       natStr (to_size lwm.swap_used size), natStr (to_size lwm.zswap size),
       natStr (to_size lwm.zswapped size), natStr (to_size lwm.shmem size)]

/-! ## Command line surface and `main` (lines 88-149 and 405-439) -/

structure LwmArgs where
  all : Bool
  no_color : Bool
  binary : Bool
  friendly : Bool
  bytes : Bool
  kilo : Bool
  kibi : Bool
  mega : Bool
  mibi : Bool
  giga : Bool
  gibi : Bool
  tera : Bool
  tibi : Bool
  peta : Bool
  pibi : Bool
deriving DecidableEq

/-- `main`, applied to the text read from `/proc/meminfo`: attach all
values (failing fatally on any extraction error, before any printing), then
dispatch on the flags in source order.  The result is the report written to
standard output, or `none` when the program panics first. -/
def lwm_main (src : List Char) (args : LwmArgs) : Option (List Char) :=
  Option.bind (lwm_attach_values src) fun lwm =>
  if args.all then lwm_print_all lwm args.binary args.friendly (!args.no_color)
  else if args.bytes then some (lwm_print_to_size lwm TO_B (!args.no_color))
  else if args.kilo then some (lwm_print_to_size lwm TO_KB (!args.no_color))
  else if args.kibi then some (lwm_print_to_size lwm TO_KiB (!args.no_color))
  else if args.mega then some (lwm_print_to_size lwm TO_MB (!args.no_color))
  else if args.mibi then some (lwm_print_to_size lwm TO_MiB (!args.no_color))
  else if args.giga then some (lwm_print_to_size lwm TO_GB (!args.no_color))
  else if args.gibi then some (lwm_print_to_size lwm TO_GiB (!args.no_color))
  else if args.tera then some (lwm_print_to_size lwm TO_TB (!args.no_color))
  else if args.tibi then some (lwm_print_to_size lwm TO_TiB (!args.no_color))
  else if args.peta then some (lwm_print_to_size lwm TO_PB (!args.no_color))
  else if args.pibi then some (lwm_print_to_size lwm TO_PiB (!args.no_color))
  else lwm_print_all lwm args.binary args.friendly (!args.no_color)

/-- The single-unit flags of the command line. -/
inductive SizeUnit
  | bytes | kilo | kibi | mega | mibi | giga | gibi | tera | tibi | peta | pibi
deriving DecidableEq

/-- The divisor `main` passes to `lwm_print_to_size` for each single-unit
flag (the table claim C2 is about). -/
def unitDivisor : SizeUnit → Nat
  | .bytes => TO_B
  | .kilo => TO_KB
  | .kibi => TO_KiB
  | .mega => TO_MB
  | .mibi => TO_MiB
  | .giga => TO_GB
  | .gibi => TO_GiB
  | .tera => TO_TB
  | .tibi => TO_TiB
  | .peta => TO_PB
  | .pibi => TO_PiB

/-- An argument record that selects exactly one single-unit flag, with
`no_color` set to the negation of the requested color. -/
def argsFor : SizeUnit → Bool → LwmArgs
  | .bytes, col => ⟨false, !col, false, false, true, false, false, false, false, false, false, false, false, false, false⟩
  | .kilo, col => ⟨false, !col, false, false, false, true, false, false, false, false, false, false, false, false, false⟩
  | .kibi, col => ⟨false, !col, false, false, false, false, true, false, false, false, false, false, false, false, false⟩
  | .mega, col => ⟨false, !col, false, false, false, false, false, true, false, false, false, false, false, false, false⟩
  | .mibi, col => ⟨false, !col, false, false, false, false, false, false, true, false, false, false, false, false, false⟩
  | .giga, col => ⟨false, !col, false, false, false, false, false, false, false, true, false, false, false, false, false⟩
  | .gibi, col => ⟨false, !col, false, false, false, false, false, false, false, false, true, false, false, false, false⟩
  | .tera, col => ⟨false, !col, false, false, false, false, false, false, false, false, false, true, false, false, false⟩
  | .tibi, col => ⟨false, !col, false, false, false, false, false, false, false, false, false, false, true, false, false⟩
  | .peta, col => ⟨false, !col, false, false, false, false, false, false, false, false, false, false, false, true, false⟩
  | .pibi, col => ⟨false, !col, false, false, false, false, false, false, false, false, false, false, false, false, true⟩

/-- Absence of the ANSI escape character anywhere in a rendered text. -/
def noEsc (s : List Char) : Prop := ∀ c ∈ s, c ≠ '\x1b'

instance (s : List Char) : Decidable (noEsc s) := by
  unfold noEsc; infer_instance

/-! ## Value-list views of the reports and test fixtures -/

/-- The twelve value strings of a single-unit report. -/
def sizeVals (lwm : Lwm) (size : Nat) : List (List Char) :=
  (fieldsList lwm).map (fun v => natStr (to_size v size))

/-- The twelve value strings of a friendly (human-readable) report: each
field is scaled by the step of the selected unit system (1024 in binary
mode, 1000 in decimal mode) before being handed to `lwm_conv_to_hbytes`. -/
def friendlyVals (lwm : Lwm) (b : Bool) : Option (List (List Char)) :=
  optMapM (fun v => lwm_conv_to_hbytes (v * (if b then 1024 else 1000)) b) (fieldsList lwm)

/-- A synthetic `/proc/meminfo` text with every required key. -/
def demoSrc : List Char :=
  ("MemTotal: 1000 kB\nMemFree: 300 kB\nMemAvailable: 400 kB\nBuffers: 10 kB\n" ++
   "Cached: 20 kB\nSwapCached: 5 kB\nSwapTotal: 500 kB\nSwapFree: 120 kB\n" ++
   "Zswap: 1 kB\nZswapped: 2 kB\nShmem: 3 kB\nSReclaimable: 4 kB\n").data

/-- The snapshot `lwm_attach_values` builds from `demoSrc`. -/
def demoLwm : Lwm := ⟨1000, 300, 400, 600, 10, 20, 5, 500, 120, 380, 1, 2, 3, 4⟩

/-- `demoSrc` with the `SwapTotal:` line removed. -/
def demoSrcNoSwapTotal : List Char :=
  ("MemTotal: 1000 kB\nMemFree: 300 kB\nMemAvailable: 400 kB\nBuffers: 10 kB\n" ++
   "Cached: 20 kB\nSwapCached: 5 kB\nSwapFree: 120 kB\n" ++
   "Zswap: 1 kB\nZswapped: 2 kB\nShmem: 3 kB\nSReclaimable: 4 kB\n").data

/-- A snapshot with every field equal to 999 kibibytes. -/
def lwm999 : Lwm := ⟨999, 999, 999, 999, 999, 999, 999, 999, 999, 999, 999, 999, 999, 999⟩

/-! ## Lemmas about the extraction scan -/

theorem extractLines_none (key : List Char) (ls : List (List Char)) :
    extractLines key ls none = none := by
  induction ls with
  | nil => rfl
  | cons l ls ih => simp [extractLines, ih]

theorem extractLines_some (key : List Char) (ls : List (List Char)) :
    ∀ v : List Char,
      extractLines key ls (some v) =
        Option.map (fun ps => v ++ ps.flatten)
          (optMapM linePiece (ls.filter (fun l => key.isPrefixOf l))) := by
  induction ls with
  | nil => intro v; simp [extractLines, optMapM]
  | cons l ls ih =>
    intro v
    by_cases hp : key.isPrefixOf l
    · rw [extractLines, if_pos hp]
      cases hl : linePiece l with
      | none =>
        simp only [Option.some_bind, hl, Option.map_none']
        rw [extractLines_none]
        simp [List.filter_cons, hp, optMapM, hl]
      | some p =>
        simp only [Option.some_bind, hl, Option.map_some']
        rw [ih (v ++ p)]
        simp [List.filter_cons, hp, optMapM, hl]
        cases optMapM linePiece (ls.filter (fun l => key.isPrefixOf l)) <;>
          simp [List.append_assoc]
    · rw [extractLines, if_neg hp]
      rw [ih v]
      simp [List.filter_cons, hp]

/-! ## Claim C1 -/

/-- C1 (corrected): field extraction scans every line of the text and tests
whether the line starts with the key; for each matching line it takes the
colon-separated segment following the first colon, strips trailing `"kB"`
and trims (via `linePiece`); but the extracted value is the decimal parse
of the **concatenation** of all matching lines' segments in scan order —
not the value of the last matching line. -/
theorem C1_extraction_concatenates (src key : List Char) :
    lwm_get_value src key =
      Option.bind (optMapM linePiece ((rustLines src).filter (fun l => key.isPrefixOf l)))
        (fun ps => parseU64 ps.flatten) := by
  unfold lwm_get_value extractRaw
  rw [extractLines_some]
  cases optMapM linePiece ((rustLines src).filter (fun l => key.isPrefixOf l)) <;> simp

/-- C1 counterexample: on a text whose two lines `"A: 1"` and `"A: 2"` both
match the key `"A:"`, the code returns `12` (the parse of the concatenated
pieces `"1"` and `"2"`), while the claim's algorithm (`claimGetValue`,
last match wins) returns `2`. -/
theorem C1_counterexample :
    lwm_get_value "A: 1\nA: 2".data "A:".data = some 12 ∧
    claimGetValue "A: 1\nA: 2".data "A:".data = some 2 ∧
    lwm_get_value "A: 1\nA: 2".data "A:".data ≠
      claimGetValue "A: 1\nA: 2".data "A:".data := by
  refine ⟨by decide, by decide, by decide⟩

/-! ## Claim C7 -/

/-- C7: boundary cases of the human-readable formatter: 1024 bytes in
binary mode render as `"1.0KiB"`; 0 bytes render as `"0B"` in both modes
(through the `size <= 0.0` short-circuit that precedes any logarithm in
`lwm_conv_to_hbytes`); 999 bytes in decimal mode render as `"999.0B"`. -/
theorem C7_boundary_values :
    lwm_conv_to_hbytes 1024 true = some "1.0KiB".data ∧
    lwm_conv_to_hbytes 0 true = some "0B".data ∧
    lwm_conv_to_hbytes 0 false = some "0B".data ∧
    lwm_conv_to_hbytes 999 false = some "999.0B".data := by
  refine ⟨by decide, by decide, by decide, by decide⟩

/-! ## Claim C6 -/

theorem floorLogAux_spec (b : Nat) (hb : 2 ≤ b) (fuel : Nat) :
    ∀ n, 0 < n → n < b ^ fuel →
      b ^ floorLogAux b fuel n ≤ n ∧ n < b ^ (floorLogAux b fuel n + 1) := by
  induction fuel with
  | zero => intro n hn hlt; simp at hlt; omega
  | succ fuel ih =>
    intro n hn hlt
    rw [floorLogAux]
    by_cases hsm : n < b
    · rw [if_pos hsm]
      constructor
      · simpa using hn
      · simpa using hsm
    · rw [if_neg hsm]
      push_neg at hsm
      have hbpos : 0 < b := by omega
      have hm1 : 0 < n / b := (Nat.one_le_div_iff hbpos).mpr hsm
      have hm2 : n / b < b ^ fuel := by
        rw [Nat.div_lt_iff_lt_mul hbpos]
        calc n < b ^ (fuel + 1) := hlt
          _ = b ^ fuel * b := by rw [pow_succ]
      have hspec := ih (n / b) hm1 hm2
      constructor
      · calc b ^ (floorLogAux b fuel (n / b) + 1)
            = b ^ floorLogAux b fuel (n / b) * b := by rw [pow_succ]
          _ ≤ n / b * b := Nat.mul_le_mul_right b hspec.1
          _ ≤ n := Nat.div_mul_le_self n b
      · have h2 : n < b ^ (floorLogAux b fuel (n / b) + 1) * b :=
          (Nat.div_lt_iff_lt_mul hbpos).mp hspec.2
        calc n < b ^ (floorLogAux b fuel (n / b) + 1) * b := h2
          _ = b ^ (floorLogAux b fuel (n / b) + 1 + 1) := (pow_succ b _).symm

/-- C6 (corrected): the magnitude-ladder index of `lwm_conv_to_hbytes`
stays inside the six-entry suffix table exactly for positive byte values
below `step^6`; for values of `step^6` and above (well within `u64 × 1024`
reach) the index is at least 6 and the table lookup fails — in the Rust
source an uncaught index-out-of-bounds panic, not a handled formatting
error.  The bound `size < step^80` covers every value reachable from a
parsed `u64` kibibyte count. -/
theorem C6_amended (b : Bool) (size : Nat) (h0 : 0 < size)
    (hbound : size < (if b then 1024 else 1000) ^ 80) :
    (size < (if b then 1024 else 1000) ^ 6 →
      hbSuffixIndex b size < 6 ∧ ∃ s, lwm_conv_to_hbytes size b = some s) ∧
    ((if b then 1024 else 1000) ^ 6 ≤ size →
      6 ≤ hbSuffixIndex b size ∧ lwm_conv_to_hbytes size b = none) := by
  have hu2 : 2 ≤ (if b then 1024 else 1000) := by cases b <;> norm_num
  have hspec := floorLogAux_spec (if b then 1024 else 1000) hu2 80 size h0 hbound
  have hidx : hbSuffixIndex b size = floorLogAux (if b then 1024 else 1000) 80 size := rfl
  constructor
  · intro hlt
    have hlt6 : hbSuffixIndex b size < 6 := by
      by_contra hge
      push_neg at hge
      have hmono : (if b then 1024 else 1000) ^ 6 ≤
          (if b then 1024 else 1000) ^ hbSuffixIndex b size :=
        Nat.pow_le_pow_right (by omega) hge
      rw [hidx] at hmono
      have := le_trans hmono hspec.1
      omega
    refine ⟨hlt6, ?_⟩
    have hlen : hbSuffixIndex b size < (hbSuffixes b).length := by
      cases b <;> simpa [hbSuffixes] using hlt6
    rw [lwm_conv_to_hbytes]
    rw [if_neg (by omega)]
    dsimp only
    rw [List.get?_eq_get hlen]
    exact ⟨_, rfl⟩
  · intro hge
    have hge6 : 6 ≤ hbSuffixIndex b size := by
      by_contra hlt'
      push_neg at hlt'
      have hmono : (if b then 1024 else 1000) ^ (hbSuffixIndex b size + 1) ≤
          (if b then 1024 else 1000) ^ 6 :=
        Nat.pow_le_pow_right (by omega) (by omega)
      rw [hidx] at hmono
      have := lt_of_lt_of_le hspec.2 hmono
      omega
    refine ⟨hge6, ?_⟩
    have hnone : (hbSuffixes b).get? (hbSuffixIndex b size) = none := by
      rw [List.get?_eq_none]
      cases b <;> simpa [hbSuffixes] using hge6
    rw [lwm_conv_to_hbytes]
    rw [if_neg (by omega)]
    dsimp only
    rw [hnone]

/-- C6 counterexample: at `2^63` bytes in binary mode the truncated
logarithm is 6, outside the six-entry suffix table, and the formatter
fails (the Rust code panics with an index-out-of-bounds) instead of
handling the value as a formatting error. -/
theorem C6_counterexample :
    hbSuffixIndex true (2 ^ 63) = 6 ∧
    lwm_conv_to_hbytes (2 ^ 63) true = none := by
  refine ⟨by decide, by decide⟩

/-- Witness for `C6_amended` at the concrete input `2^61` bytes. -/
theorem C6_amended_witness :
    0 < (2 : Nat) ^ 61 ∧ (2 : Nat) ^ 61 < 1024 ^ 80 ∧ 1024 ^ 6 ≤ (2 : Nat) ^ 61 ∧
    6 ≤ hbSuffixIndex true (2 ^ 61) ∧ lwm_conv_to_hbytes (2 ^ 61) true = none := by
  have h := (C6_amended true (2 ^ 61) (by decide) (by decide)).2 (by decide)
  exact ⟨by decide, by decide, by decide, h.1, h.2⟩

/-! ## ANSI-escape freedom of the rendered pieces -/

theorem digitChar_ne_esc (m : Nat) : Nat.digitChar m ≠ '\x1b' := by
  intro h
  rcases (by omega : m < 16 ∨ 16 ≤ m) with h16 | h16
  · interval_cases m <;> exact absurd h (by decide)
  · have hstar : Nat.digitChar m = '*' := by
      unfold Nat.digitChar
      repeat rw [if_neg (by omega)]
    rw [hstar] at h
    exact absurd h (by decide)

theorem toDigitsCore_mem (base : Nat) :
    ∀ (fuel n : Nat) (ds : List Char) (c : Char),
      c ∈ Nat.toDigitsCore base fuel n ds → c ∈ ds ∨ ∃ m, c = Nat.digitChar m := by
  intro fuel
  induction fuel with
  | zero => intro n ds c hc; exact Or.inl hc
  | succ fuel ih =>
    intro n ds c hc
    rw [Nat.toDigitsCore] at hc
    by_cases hz : n / base = 0
    · rw [if_pos hz] at hc
      rcases List.mem_cons.mp hc with h | h
      · exact Or.inr ⟨n % base, h⟩
      · exact Or.inl h
    · rw [if_neg hz] at hc
      rcases ih (n / base) (Nat.digitChar (n % base) :: ds) c hc with h | h
      · rcases List.mem_cons.mp h with h' | h'
        · exact Or.inr ⟨n % base, h'⟩
        · exact Or.inl h'
      · exact Or.inr h

theorem natStr_noEsc (n : Nat) : noEsc (natStr n) := by
  intro c hc
  rcases toDigitsCore_mem 10 (n + 1) n [] c hc with h | ⟨m, rfl⟩
  · simp at h
  · exact digitChar_ne_esc m

theorem hbytes_noEsc (size : Nat) (b : Bool) (s : List Char)
    (h : lwm_conv_to_hbytes size b = some s) : noEsc s := by
  rw [lwm_conv_to_hbytes] at h
  by_cases hz : size = 0
  · rw [if_pos hz] at h
    obtain rfl : "0B".data = s := Option.some.inj h
    decide
  · rw [if_neg hz] at h
    dsimp only at h
    cases hg : (hbSuffixes b).get? (hbSuffixIndex b size) with
    | none => rw [hg] at h; exact absurd h (by simp)
    | some suf =>
      rw [hg] at h
      obtain rfl := Option.some.inj h
      have hsuf : noEsc suf := by
        have hmem := List.get?_mem hg
        cases b <;> simp only [hbSuffixes, if_true, if_false, Bool.false_eq_true,
          List.mem_cons, List.mem_singleton, List.not_mem_nil, or_false] at hmem <;>
          rcases hmem with h | h | h | h | h | h <;> (subst h; decide)
      intro c hc
      rcases List.mem_append.mp hc with h1 | h1
      · rcases List.mem_append.mp h1 with h2 | h2
        · exact natStr_noEsc _ c h2
        · rcases List.mem_cons.mp h2 with h3 | h3
          · simp [h3]
          · exact natStr_noEsc _ c h3
      · exact hsuf c h1

theorem renderLines_noEsc :
    ∀ ls vs : List (List Char), (∀ l ∈ ls, noEsc l) → (∀ v ∈ vs, noEsc v) →
      noEsc (renderLines false ls vs) := by
  intro ls
  induction ls with
  | nil => intro vs hl hv c hc; simp [renderLines] at hc
  | cons l ls ih =>
    intro vs hl hv
    cases vs with
    | nil => intro c hc; simp [renderLines] at hc
    | cons v vs =>
      intro c hc
      rw [renderLines] at hc
      rcases List.mem_append.mp hc with h | h
      · rw [renderLine, if_neg (by simp)] at h
        rcases List.mem_append.mp h with h1 | h1
        · rcases List.mem_append.mp h1 with h2 | h2
          · rcases List.mem_append.mp h2 with h3 | h3
            · exact (by decide : noEsc "\n* ".data) c h3
            · exact hl l (by simp) c h3
          · exact (by decide : noEsc ": ".data) c h2
        · exact hv v (by simp) c h1
      · exact ih vs (fun x hx => hl x (List.mem_cons_of_mem _ hx))
          (fun x hx => hv x (List.mem_cons_of_mem _ hx)) c h

theorem renderReport_noEsc (vs : List (List Char)) (hv : ∀ v ∈ vs, noEsc v) :
    noEsc (renderReport false vs) := by
  intro c hc
  rcases List.mem_append.mp hc with h | h
  · exact (by decide : noEsc reportHeader) c h
  · exact renderLines_noEsc reportLabels vs (by decide) hv c h

theorem optMapM_mem (f : α → Option β) :
    ∀ (l : List α) (l' : List β), optMapM f l = some l' →
      ∀ b ∈ l', ∃ a ∈ l, f a = some b := by
  intro l
  induction l with
  | nil =>
    intro l' h b hb
    rw [optMapM] at h
    obtain rfl := Option.some.inj h
    simp at hb
  | cons a as ih =>
    intro l' h b hb
    rw [optMapM] at h
    cases hfa : f a with
    | none => rw [hfa] at h; exact absurd h (by simp)
    | some v =>
      rw [hfa] at h
      cases hrest : optMapM f as with
      | none => rw [hrest] at h; exact absurd h (by simp)
      | some vs =>
        rw [hrest] at h
        simp only [Option.some_bind] at h
        obtain rfl := Option.some.inj h
        rcases List.mem_cons.mp hb with rfl | hmem
        · exact ⟨a, by simp, hfa⟩
        · obtain ⟨a', ha', hfa'⟩ := ih vs hrest b hmem
          exact ⟨a', by simp [ha'], hfa'⟩

/-! ## The friendly report as a map over the field list -/

set_option maxHeartbeats 2000000 in
theorem print_all_friendly_eq (lwm : Lwm) (b c : Bool) :
    lwm_print_all lwm b true c = Option.map (renderReport c) (friendlyVals lwm b) := by
  rw [lwm_print_all]
  cases c
  all_goals simp only [Bool.false_eq_true, if_false, if_true]
  all_goals cases h1 : lwm_conv_to_hbytes (lwm.mem_total * (if b = true then 1024 else 1000)) b <;>
    simp only [friendlyVals, fieldsList, optMapM, h1, Option.none_bind,
      Option.some_bind, Option.map_none', Option.map_some']
  all_goals cases h2 : lwm_conv_to_hbytes (lwm.mem_free * (if b = true then 1024 else 1000)) b <;>
    simp only [friendlyVals, fieldsList, optMapM, h1, h2, Option.none_bind,
      Option.some_bind, Option.map_none', Option.map_some']
  all_goals cases h3 : lwm_conv_to_hbytes (lwm.mem_avail * (if b = true then 1024 else 1000)) b <;>
    simp only [friendlyVals, fieldsList, optMapM, h1, h2, h3, Option.none_bind,
      Option.some_bind, Option.map_none', Option.map_some']
  all_goals cases h4 : lwm_conv_to_hbytes (lwm.mem_used * (if b = true then 1024 else 1000)) b <;>
    simp only [friendlyVals, fieldsList, optMapM, h1, h2, h3, h4, Option.none_bind,
      Option.some_bind, Option.map_none', Option.map_some']
  all_goals cases h5 : lwm_conv_to_hbytes (lwm.buffers * (if b = true then 1024 else 1000)) b <;>
    simp only [friendlyVals, fieldsList, optMapM, h1, h2, h3, h4, h5, Option.none_bind,
      Option.some_bind, Option.map_none', Option.map_some']
  all_goals cases h6 : lwm_conv_to_hbytes (lwm.swap_total * (if b = true then 1024 else 1000)) b <;>
    simp only [friendlyVals, fieldsList, optMapM, h1, h2, h3, h4, h5, h6, Option.none_bind,
      Option.some_bind, Option.map_none', Option.map_some']
  all_goals cases h7 : lwm_conv_to_hbytes (lwm.swap_free * (if b = true then 1024 else 1000)) b <;>
    simp only [friendlyVals, fieldsList, optMapM, h1, h2, h3, h4, h5, h6, h7, Option.none_bind,
      Option.some_bind, Option.map_none', Option.map_some']
  all_goals cases h8 : lwm_conv_to_hbytes (lwm.swap_cached * (if b = true then 1024 else 1000)) b <;>
    simp only [friendlyVals, fieldsList, optMapM, h1, h2, h3, h4, h5, h6, h7, h8, Option.none_bind,
      Option.some_bind, Option.map_none', Option.map_some']
  all_goals cases h9 : lwm_conv_to_hbytes (lwm.swap_used * (if b = true then 1024 else 1000)) b <;>
    simp only [friendlyVals, fieldsList, optMapM, h1, h2, h3, h4, h5, h6, h7, h8, h9, Option.none_bind,
      Option.some_bind, Option.map_none', Option.map_some']
  all_goals cases h10 : lwm_conv_to_hbytes (lwm.zswap * (if b = true then 1024 else 1000)) b <;>
    simp only [friendlyVals, fieldsList, optMapM, h1, h2, h3, h4, h5, h6, h7, h8, h9, h10, Option.none_bind,
      Option.some_bind, Option.map_none', Option.map_some']
  all_goals cases h11 : lwm_conv_to_hbytes (lwm.zswapped * (if b = true then 1024 else 1000)) b <;>
    simp only [friendlyVals, fieldsList, optMapM, h1, h2, h3, h4, h5, h6, h7, h8, h9, h10, h11, Option.none_bind,
      Option.some_bind, Option.map_none', Option.map_some']
  all_goals cases h12 : lwm_conv_to_hbytes (lwm.shmem * (if b = true then 1024 else 1000)) b <;>
    simp only [friendlyVals, fieldsList, optMapM, h1, h2, h3, h4, h5, h6, h7, h8, h9, h10, h11, h12, Option.none_bind,
      Option.some_bind, Option.map_none', Option.map_some']

/-! ## Claim C3 -/

/-- C3 (corrected): in human-readable mode the byte count handed to the
magnitude ladder is the field value times the **step of the selected unit
system** — 1024 in binary mode but 1000 in decimal mode — not 1024 in both
cases; the ladder then uses the same step. -/
theorem C3_friendly_bytes_multiplier (lwm : Lwm) (c : Bool) :
    lwm_print_all lwm true true c =
      Option.map (renderReport c)
        (optMapM (fun v => lwm_conv_to_hbytes (v * 1024) true) (fieldsList lwm)) ∧
    lwm_print_all lwm false true c =
      Option.map (renderReport c)
        (optMapM (fun v => lwm_conv_to_hbytes (v * 1000) false) (fieldsList lwm)) := by
  constructor
  · have h := print_all_friendly_eq lwm true c
    simpa [friendlyVals] using h
  · have h := print_all_friendly_eq lwm false c
    simpa [friendlyVals] using h

/-- C3 counterexample: a decimal-mode friendly report for a snapshot whose
fields are all 999 KiB prints `"999.0KB"` per field (the code multiplies by
1000), while converting first to bytes as `999 × 1024` and only then
applying the decimal ladder would print `"1.0MB"`. -/
theorem C3_counterexample :
    lwm_conv_to_hbytes (999 * 1000) false = some "999.0KB".data ∧
    lwm_conv_to_hbytes (999 * 1024) false = some "1.0MB".data ∧
    lwm_print_all lwm999 false true false ≠
      Option.map (renderReport false)
        (optMapM (fun v => lwm_conv_to_hbytes (v * 1024) false) (fieldsList lwm999)) := by
  refine ⟨by decide, by decide, by decide⟩

/-! ## Claim C10 -/

/-- C10: with human-readable mode off, the all-fields report is independent
of the binary/decimal flag: both runs print the colored template whose
values are the kibibyte fields times 1024. -/
theorem C10_nonfriendly_ignores_unit_system (lwm : Lwm) (b1 b2 c : Bool) :
    lwm_print_all lwm b1 false c = lwm_print_all lwm b2 false c ∧
    lwm_print_all lwm b1 false c =
      some (renderReport true ((fieldsList lwm).map (fun v => natStr (v * 1024)))) := by
  constructor
  · simp only [lwm_print_all, Bool.false_eq_true, if_false]
  · simp only [lwm_print_all, Bool.false_eq_true, if_false, fieldsList, List.map]

/-! ## Claim C8 -/

theorem sizeVals_noEsc (lwm : Lwm) (d : Nat) : ∀ v ∈ sizeVals lwm d, noEsc v := by
  intro v hv
  simp only [sizeVals, List.mem_map] at hv
  obtain ⟨x, -, rfl⟩ := hv
  exact natStr_noEsc _

theorem print_to_size_eq (lwm : Lwm) (d : Nat) (c : Bool) :
    lwm_print_to_size lwm d c = renderReport c (sizeVals lwm d) := by
  cases c <;>
    simp only [lwm_print_to_size, sizeVals, fieldsList, List.map, if_true,
      Bool.false_eq_true, if_false]

theorem esc_mem_renderLine_colored (l v : List Char) : '\x1b' ∈ renderLine true l v := by
  rw [renderLine, if_pos rfl]
  refine List.mem_append_left _ (List.mem_append_left _ (List.mem_append_right _ ?_))
  exact List.mem_append_left _ (List.mem_append_left _ (by decide))

theorem esc_mem_renderLines_colored (l v : List Char) (ls vs : List (List Char)) :
    '\x1b' ∈ renderLines true (l :: ls) (v :: vs) := by
  rw [renderLines]
  exact List.mem_append_left _ (esc_mem_renderLine_colored l v)

/-- C8 (corrected): color is a pure styling toggle for the *friendly*
all-fields report and for the single-unit report — both have a plain
variant with no ANSI escape and the value list is the same for the colored
and the plain variant — but the non-friendly all-fields report ignores the
color flag entirely: it always prints the ANSI-highlighted template, so
that report shape has no plain variant. -/
theorem C8_amended (lwm : Lwm) (b b' : Bool) (d : Nat) :
    noEsc (lwm_print_to_size lwm d false) ∧
    lwm_print_to_size lwm d true = renderReport true (sizeVals lwm d) ∧
    lwm_print_to_size lwm d false = renderReport false (sizeVals lwm d) ∧
    noEsc ((lwm_print_all lwm b true false).getD []) ∧
    lwm_print_all lwm b true true = Option.map (renderReport true) (friendlyVals lwm b) ∧
    lwm_print_all lwm b true false = Option.map (renderReport false) (friendlyVals lwm b) ∧
    lwm_print_all lwm b false true = lwm_print_all lwm b' false false ∧
    '\x1b' ∈ (lwm_print_all lwm b false false).getD [] := by
  refine ⟨?_, print_to_size_eq lwm d true, print_to_size_eq lwm d false, ?_,
    print_all_friendly_eq lwm b true, print_all_friendly_eq lwm b false, ?_, ?_⟩
  · rw [print_to_size_eq]
    exact renderReport_noEsc _ (sizeVals_noEsc lwm d)
  · rw [print_all_friendly_eq]
    cases hf : friendlyVals lwm b with
    | none => intro c hc; simp at hc
    | some vs =>
      simp only [Option.map_some', Option.getD_some]
      refine renderReport_noEsc vs ?_
      intro v hv
      obtain ⟨a, -, ha⟩ := optMapM_mem _ (fieldsList lwm) vs hf v hv
      exact hbytes_noEsc _ _ _ ha
  · simp only [lwm_print_all, Bool.false_eq_true, if_false]
  · simp only [lwm_print_all, Bool.false_eq_true, if_false, Option.getD_some]
    rw [renderReport, reportLabels]
    exact List.mem_append_right _ (esc_mem_renderLines_colored _ _ _ _)

/-- C8 counterexample: for the all-fields non-friendly report the color
toggle is ignored, so even the `no_color` run contains the ANSI escape
character — the shape has no plain-text variant. -/
theorem C8_counterexample :
    '\x1b' ∈ (lwm_print_all lwm999 false false false).getD [] ∧
    '\x1b' ∈ (lwm_print_all lwm999 false false true).getD [] := by
  refine ⟨by decide, by decide⟩

/-! ## Claim C2 -/

/-- C2 (corrected): the single-unit flags convert each field as
`value_kib × 1024 / divisor` (truncated), but the divisor table is the
opposite of the conventional one: the decimal-named flags kilo, mega,
giga, tera, peta divide by powers of **1024** (the source constants
`TO_KB .. TO_PB`, labelled "Binary system"), and the binary-named flags
kibi, mibi, gibi, tibi, pibi divide by powers of **1000** (the constants
`TO_KiB .. TO_PiB`, labelled "Decimal system"). -/
theorem C2_amended (src : List Char) (u : SizeUnit) (col : Bool) :
    lwm_main src (argsFor u col) =
      Option.map
        (fun lwm => renderReport col ((fieldsList lwm).map (fun v => natStr (v * 1024 /
          (match u with
           | SizeUnit.bytes => 1
           | SizeUnit.kilo => 1024
           | SizeUnit.kibi => 1000
           | SizeUnit.mega => 1024 ^ 2
           | SizeUnit.mibi => 1000 ^ 2
           | SizeUnit.giga => 1024 ^ 3
           | SizeUnit.gibi => 1000 ^ 3
           | SizeUnit.tera => 1024 ^ 4
           | SizeUnit.tibi => 1000 ^ 4
           | SizeUnit.peta => 1024 ^ 5
           | SizeUnit.pibi => 1000 ^ 5)))))
        (lwm_attach_values src) := by
  cases hA : lwm_attach_values src with
  | none => cases u <;> simp [lwm_main, argsFor, hA]
  | some lwm =>
    cases u <;> cases col <;>
      simp [lwm_main, argsFor, hA, print_to_size_eq, sizeVals, to_size, TO_B, TO_KB, TO_MB,
        TO_GB, TO_TB, TO_PB, TO_KiB, TO_MiB, TO_GiB, TO_TiB, TO_PiB]

set_option maxRecDepth 100000 in
/-- C2 counterexample: with the `--kilo` flag the program divides by 1024,
not by 1000: on `demoSrc` (total memory 1000 KiB) the kilo report prints
the values of `v × 1024 / 1024`, and differs from the report the claim's
table (`kilo = 1000`) would produce. -/
theorem C2_counterexample :
    lwm_main demoSrc (argsFor SizeUnit.kilo true) =
      some (renderReport true ((fieldsList demoLwm).map (fun v => natStr (v * 1024 / 1024)))) ∧
    lwm_main demoSrc (argsFor SizeUnit.kilo true) ≠
      some (renderReport true ((fieldsList demoLwm).map (fun v => natStr (v * 1024 / 1000)))) := by
  refine ⟨by decide, by decide⟩

/-! ## Claim C4 -/

theorem parseU64core_lt (t : List Char) (v : Nat)
    (h : parseU64core t = some v) : v < 2 ^ 64 := by
  rw [parseU64core] at h
  split at h
  · next hc => obtain rfl := Option.some.inj h; exact hc.2.2
  · exact absurd h (by simp)

theorem lwm_get_value_lt (src key : List Char) (v : Nat)
    (h : lwm_get_value src key = some v) : v < 2 ^ 64 := by
  rw [lwm_get_value] at h
  cases hr : extractRaw src key with
  | none => rw [hr] at h; exact absurd h (by simp)
  | some raw =>
    rw [hr, Option.some_bind, parseU64] at h
    exact parseU64core_lt _ _ h

/-- C4: under the preconditions `available ≤ total` and
`swap free ≤ swap total`, the derived fields of every snapshot built by
`lwm_attach_values` satisfy `used = total − available` and
`swap used = swap total − swap free` (the wrapping `u64` subtraction
coincides with the exact one there). -/
theorem C4_derived_fields (src : List Char) (lwm : Lwm)
    (hA : lwm_attach_values src = some lwm)
    (hAvail : lwm.mem_avail ≤ lwm.mem_total)
    (hSwap : lwm.swap_free ≤ lwm.swap_total) :
    lwm.mem_used = lwm.mem_total - lwm.mem_avail ∧
    lwm.swap_used = lwm.swap_total - lwm.swap_free := by
  rw [lwm_attach_values] at hA
  simp only [Option.bind_eq_some] at hA
  obtain ⟨a1, h1, a2, h2, a3, h3, a4, h4, a5, h5, a6, h6, a7, h7, a8, h8, a9, h9,
    a10, h10, a11, h11, a12, h12, heq⟩ := hA
  obtain rfl := Option.some.inj heq
  have b1 := lwm_get_value_lt _ _ _ h1
  have b3 := lwm_get_value_lt _ _ _ h3
  have b7 := lwm_get_value_lt _ _ _ h7
  have b8 := lwm_get_value_lt _ _ _ h8
  simp only [u64sub] at *
  constructor <;> (dsimp only at *; omega)

set_option maxRecDepth 100000 in
/-- Witness for `C4_derived_fields` on the synthetic source `demoSrc`
(total 1000, available 400, swap total 500, swap free 120): used memory is
600 and used swap is 380. -/
theorem C4_derived_fields_witness :
    lwm_attach_values demoSrc = some demoLwm ∧
    demoLwm.mem_avail ≤ demoLwm.mem_total ∧
    demoLwm.swap_free ≤ demoLwm.swap_total ∧
    demoLwm.mem_used = 600 ∧ demoLwm.swap_used = 380 ∧
    demoLwm.mem_used = demoLwm.mem_total - demoLwm.mem_avail ∧
    demoLwm.swap_used = demoLwm.swap_total - demoLwm.swap_free := by
  have hA : lwm_attach_values demoSrc = some demoLwm := by decide
  have h := C4_derived_fields demoSrc demoLwm hA (by decide) (by decide)
  exact ⟨hA, by decide, by decide, by decide, by decide, h.1, h.2⟩

/-! ## Claim C5 -/

theorem parseU64_nil : parseU64 [] = none := rfl

theorem extract_no_match (src key : List Char)
    (h : ∀ l ∈ rustLines src, key.isPrefixOf l = false) :
    extractRaw src key = some [] := by
  rw [extractRaw, extractLines_some]
  have hf : (rustLines src).filter (fun l => key.isPrefixOf l) = [] :=
    List.filter_eq_nil_iff.mpr (by intro a ha; simp [h a ha])
  rw [hf]
  rfl

/-- C5: when a required key has no matching line in the source text, or the
accumulated value portion of its matching lines does not parse as an
unsigned 64-bit integer, extraction of that key fails (it never defaults to
zero), snapshot construction fails, and the program produces no report at
all, whatever the flags. -/
theorem C5_extraction_failure_is_fatal (src key : List Char)
    (hkey : key ∈ requiredKeys)
    (h : (∀ l ∈ rustLines src, key.isPrefixOf l = false) ∨
         (∀ raw, extractRaw src key = some raw → parseU64 raw = none)) :
    lwm_get_value src key = none ∧ lwm_attach_values src = none ∧
    ∀ args : LwmArgs, lwm_main src args = none := by
  have hget : lwm_get_value src key = none := by
    rcases h with h | h
    · rw [lwm_get_value, extract_no_match src key h, Option.some_bind, parseU64_nil]
    · rw [lwm_get_value]
      cases hr : extractRaw src key with
      | none => rfl
      | some raw => rw [Option.some_bind]; exact h raw hr
  have hatt : lwm_attach_values src = none := by
    cases ha : lwm_attach_values src with
    | none => rfl
    | some lwm =>
      exfalso
      rw [lwm_attach_values] at ha
      simp only [Option.bind_eq_some] at ha
      obtain ⟨a1, h1, a2, h2, a3, h3, a4, h4, a5, h5, a6, h6, a7, h7, a8, h8, a9, h9,
        a10, h10, a11, h11, a12, h12, -⟩ := ha
      simp only [requiredKeys, List.mem_cons, List.not_mem_nil, or_false] at hkey
      rcases hkey with rfl | rfl | rfl | rfl | rfl | rfl | rfl | rfl | rfl | rfl | rfl | rfl <;>
        simp_all
  refine ⟨hget, hatt, fun args => ?_⟩
  rw [lwm_main, hatt]
  rfl

set_option maxRecDepth 100000 in
/-- Witness for `C5_extraction_failure_is_fatal`: a source text lacking the
`SwapTotal:` line makes that extraction, the snapshot construction, and the
whole run fail with no output. -/
theorem C5_extraction_failure_is_fatal_witness :
    lwm_get_value demoSrcNoSwapTotal "SwapTotal:".data = none ∧
    lwm_attach_values demoSrcNoSwapTotal = none ∧
    lwm_main demoSrcNoSwapTotal (argsFor SizeUnit.bytes true) = none := by
  have h := C5_extraction_failure_is_fatal demoSrcNoSwapTotal "SwapTotal:".data
    (by decide) (Or.inl (by decide))
  exact ⟨h.1, h.2.1, h.2.2 _⟩

/-! ## Claim C9: lemmas about splitting, trimming and suffix stripping -/

theorem splitOnChar_ne_nil (sep : Char) (s : List Char) : splitOnChar sep s ≠ [] := by
  cases s with
  | nil => simp [splitOnChar]
  | cons c cs =>
    rw [splitOnChar]
    cases splitOnChar sep cs with
    | nil => simp
    | cons a rest =>
      dsimp only
      split <;> simp

theorem splitOnChar_of_not_mem (sep : Char) (s : List Char) (h : sep ∉ s) :
    splitOnChar sep s = [s] := by
  induction s with
  | nil => rfl
  | cons c cs ih =>
    rw [splitOnChar, ih (fun hm => h (List.mem_cons_of_mem c hm))]
    have hc : ¬ c = sep := fun he => h (he ▸ List.mem_cons_self c cs)
    simp [hc]

theorem splitOnChar_append (sep : Char) (a b : List Char) (ha : sep ∉ a) :
    splitOnChar sep (a ++ sep :: b) = a :: splitOnChar sep b := by
  induction a with
  | nil =>
    rw [List.nil_append, splitOnChar]
    cases hsp : splitOnChar sep b with
    | nil => exact absurd hsp (splitOnChar_ne_nil sep b)
    | cons x rest => simp
  | cons c cs ih =>
    rw [List.cons_append, splitOnChar, ih (fun hm => ha (List.mem_cons_of_mem c hm))]
    have hc : ¬ c = sep := fun he => ha (he ▸ List.mem_cons_self c cs)
    simp [hc]

theorem rustLines_single (s : List Char) (hne : s ≠ []) (h : ∀ c ∈ s, c ≠ '\n') :
    rustLines s = [s] := by
  rw [rustLines, if_neg hne]
  dsimp only
  rw [splitOnChar_of_not_mem '\n' s (fun hm => h '\n' hm rfl)]
  simp [hne]

theorem containsKB_append_kb (a b : List Char) :
    containsKB (a ++ 'k' :: 'B' :: b) = true := by
  induction a with
  | nil => simp [containsKB]
  | cons c cs ih =>
    rw [List.cons_append]
    cases hcs : cs ++ 'k' :: 'B' :: b with
    | nil => exact absurd hcs (by simp)
    | cons y ys =>
      rw [containsKB]
      split
      · rfl
      · rw [← hcs]
        exact ih

theorem containsKB_of_no_k (s : List Char) (h : ∀ c ∈ s, c ≠ 'k') :
    containsKB s = false := by
  induction s with
  | nil => rfl
  | cons c cs ih =>
    cases cs with
    | nil => rfl
    | cons d ds =>
      rw [containsKB, if_neg (fun hc => h c (List.mem_cons_self c _) hc.1)]
      exact ih (fun x hx => h x (List.mem_cons_of_mem c hx))

theorem dropKBrev_of_head_ne (r : List Char) (h : r.head? ≠ some 'B') : dropKBrev r = r := by
  cases r with
  | nil => rfl
  | cons c1 t =>
    cases t with
    | nil => rfl
    | cons c2 rest =>
      rw [dropKBrev, if_neg (fun hc => h (by simp [hc.1]))]

theorem trimEnd_append_kB (a : List Char) :
    trimEndMatchesKB (a ++ ['k', 'B']) = trimEndMatchesKB a := by
  simp [trimEndMatchesKB, List.reverse_append, dropKBrev]

theorem trimEnd_of_getLast_ne (s : List Char) (h : s.getLast? ≠ some 'B') :
    trimEndMatchesKB s = s := by
  have h' : s.reverse.head? ≠ some 'B' := by rw [List.head?_reverse]; exact h
  rw [trimEndMatchesKB, dropKBrev_of_head_ne s.reverse h', List.reverse_reverse]

theorem dropWhile_append_of_all (p : Char → Bool) (a b : List Char)
    (h : ∀ x ∈ a, p x = true) : (a ++ b).dropWhile p = b.dropWhile p := by
  induction a with
  | nil => rfl
  | cons c cs ih =>
    rw [List.cons_append, List.dropWhile_cons]
    simp only [h c (List.mem_cons_self c cs), if_true]
    exact ih (fun x hx => h x (List.mem_cons_of_mem c hx))

theorem digit_not_ws (c : Char) (h : c.isDigit = true) : isWs c = false := by
  by_contra hws
  rw [Bool.not_eq_false] at hws
  simp only [isWs, Char.isWhitespace, Bool.or_eq_true, decide_eq_true_eq, or_assoc] at hws
  rcases hws with h1 | h1 | h1 | h1 | h1 | h1 <;> subst h1 <;> exact absurd h (by decide)

theorem trim_sandwich (w1 d w2 : List Char)
    (hw1 : ∀ c ∈ w1, isWs c = true) (hw2 : ∀ c ∈ w2, isWs c = true)
    (hd : d ≠ []) (hdws : ∀ c ∈ d, isWs c = false) :
    trim (w1 ++ d ++ w2) = d := by
  obtain ⟨c0, d', rfl⟩ := List.exists_cons_of_ne_nil hd
  rw [trim, trimLeft, List.append_assoc, dropWhile_append_of_all isWs w1 _ hw1,
    List.cons_append, List.dropWhile_cons]
  simp only [hdws c0 (List.mem_cons_self c0 d'), Bool.false_eq_true, if_false]
  rw [trimRight, show c0 :: (d' ++ w2) = (c0 :: d') ++ w2 from rfl, List.reverse_append,
    dropWhile_append_of_all isWs w2.reverse _ (fun x hx => hw2 x (List.mem_reverse.mp hx))]
  cases hrev : (c0 :: d').reverse with
  | nil => simp at hrev
  | cons y ys =>
    have hy : y ∈ c0 :: d' := by
      have hmem : y ∈ (c0 :: d').reverse := by rw [hrev]; exact List.mem_cons_self y ys
      exact List.mem_reverse.mp hmem
    rw [List.dropWhile_cons]
    simp only [hdws y hy, Bool.false_eq_true, if_false]
    rw [← hrev, List.reverse_reverse]

theorem parseU64_digits (d : List Char) (hne : d ≠ [])
    (hdig : ∀ c ∈ d, c.isDigit = true) (hb : digitsVal d < 2 ^ 64) :
    parseU64 d = some (digitsVal d) := by
  cases d with
  | nil => exact absurd rfl hne
  | cons c cs =>
    have hc : ¬ (c :: cs).head? = some '+' := by
      intro h'
      have hm := hdig c (List.mem_cons_self c cs)
      rw [Option.some.inj h'] at hm
      exact absurd hm (by decide)
    rw [parseU64, if_neg hc, parseU64core,
      if_pos ⟨hne, List.all_eq_true.mpr hdig, hb⟩]

theorem splitOnChar_memtotal (rest : List Char) (h : ':' ∉ rest) :
    splitOnChar ':' ("MemTotal:".data ++ rest) = ["MemTotal".data, rest] := by
  have e : "MemTotal:".data ++ rest = "MemTotal".data ++ ':' :: rest := by
    rw [show "MemTotal:".data = "MemTotal".data ++ [':'] from rfl, List.append_assoc,
      List.singleton_append]
  rw [e, splitOnChar_append ':' "MemTotal".data rest (by decide),
    splitOnChar_of_not_mem ':' rest h]

theorem isPrefixOf_append_self (key rest : List Char) : key.isPrefixOf (key ++ rest) = true := by
  rw [List.isPrefixOf_iff_prefix]
  exact List.prefix_append key rest

theorem lwm_get_value_single (tail : List Char)
    (hnc : ':' ∉ tail)
    (hnl : ∀ c ∈ "MemTotal:".data ++ tail, c ≠ '\n') :
    lwm_get_value ("MemTotal:".data ++ tail) "MemTotal:".data =
      parseU64 (if containsKB tail then trim (trimEndMatchesKB tail) else trim tail) := by
  have hsingle := rustLines_single ("MemTotal:".data ++ tail) (by simp) hnl
  rw [lwm_get_value, extractRaw, hsingle]
  simp only [extractLines, isPrefixOf_append_self, if_true]
  rw [linePiece, splitOnChar_memtotal tail hnc]
  simp

/-- C9: extraction strips the trailing `"kB"` unit token: a `MemTotal:`
line with arbitrary space/tab runs around the digits parses to the same
unsigned integer with or without the trailing `"kB"`. -/
theorem C9_suffix_stripping (d w1 w2 w3 w4 : List Char)
    (hd : d ≠ []) (hdig : ∀ c ∈ d, c.isDigit = true)
    (hval : digitsVal d < 2 ^ 64)
    (hw : ∀ c ∈ w1 ++ w2 ++ w3 ++ w4, c = ' ' ∨ c = '\t') :
    lwm_get_value ("MemTotal:".data ++ (w1 ++ d ++ w2 ++ "kB".data)) "MemTotal:".data
      = some (digitsVal d) ∧
    lwm_get_value ("MemTotal:".data ++ (w3 ++ d ++ w4)) "MemTotal:".data
      = some (digitsVal d) := by
  have hw1 : ∀ c ∈ w1, c = ' ' ∨ c = '\t' := fun c hc => hw c (by simp [List.mem_append, hc])
  have hw2 : ∀ c ∈ w2, c = ' ' ∨ c = '\t' := fun c hc => hw c (by simp [List.mem_append, hc])
  have hw3 : ∀ c ∈ w3, c = ' ' ∨ c = '\t' := fun c hc => hw c (by simp [List.mem_append, hc])
  have hw4 : ∀ c ∈ w4, c = ' ' ∨ c = '\t' := fun c hc => hw c (by simp [List.mem_append, hc])
  have hwsOf : ∀ c, (c = ' ' ∨ c = '\t') → isWs c = true := by
    rintro c (rfl | rfl) <;> decide
  have hwc : ∀ c, (c = ' ' ∨ c = '\t') → c ≠ ':' ∧ c ≠ '\n' ∧ c ≠ 'k' ∧ c ≠ 'B' := by
    rintro c (rfl | rfl) <;> exact ⟨by decide, by decide, by decide, by decide⟩
  have hdws : ∀ c ∈ d, isWs c = false := fun c hc => digit_not_ws c (hdig c hc)
  have hdColon : ∀ c ∈ d, c ≠ ':' := fun c hc he => absurd (he ▸ hdig c hc) (by decide)
  have hdNl : ∀ c ∈ d, c ≠ '\n' := fun c hc he => absurd (he ▸ hdig c hc) (by decide)
  have hdK : ∀ c ∈ d, c ≠ 'k' := fun c hc he => absurd (he ▸ hdig c hc) (by decide)
  have hdB : ∀ c ∈ d, c ≠ 'B' := fun c hc he => absurd (he ▸ hdig c hc) (by decide)
  have hkey : ∀ x ∈ "MemTotal:".data, x ≠ '\n' := by decide
  constructor
  · rw [show ("kB".data : List Char) = ['k', 'B'] from rfl]
    have hnc1 : ':' ∉ w1 ++ d ++ w2 ++ ['k', 'B'] := by
      intro hm
      simp only [List.mem_append] at hm
      rcases hm with ((hm | hm) | hm) | hm
      · exact (hwc ':' (hw1 ':' hm)).1 rfl
      · exact hdColon ':' hm rfl
      · exact (hwc ':' (hw2 ':' hm)).1 rfl
      · exact absurd hm (by decide)
    have hnl1 : ∀ c ∈ "MemTotal:".data ++ (w1 ++ d ++ w2 ++ ['k', 'B']), c ≠ '\n' := by
      intro c hc
      simp only [List.mem_append] at hc
      rcases hc with hc | ((hc | hc) | hc) | hc
      · exact hkey c hc
      · exact (hwc c (hw1 c hc)).2.1
      · exact hdNl c hc
      · exact (hwc c (hw2 c hc)).2.1
      · intro he
        rw [he] at hc
        exact absurd hc (by decide)
    rw [lwm_get_value_single _ hnc1 hnl1]
    have hck : containsKB (w1 ++ d ++ w2 ++ ['k', 'B']) = true := by
      rw [show (['k', 'B'] : List Char) = 'k' :: 'B' :: [] from rfl]
      exact containsKB_append_kb _ _
    simp only [hck, if_true]
    have hlast : ((w1 ++ d) ++ w2).getLast? ≠ some 'B' := by
      intro hg
      have hm := List.mem_of_getLast?_eq_some hg
      simp only [List.mem_append] at hm
      rcases hm with (hm | hm) | hm
      · exact (hwc 'B' (hw1 'B' hm)).2.2.2 rfl
      · exact hdB 'B' hm rfl
      · exact (hwc 'B' (hw2 'B' hm)).2.2.2 rfl
    rw [trimEnd_append_kB, trimEnd_of_getLast_ne _ hlast,
      trim_sandwich w1 d w2 (fun c hc => hwsOf c (hw1 c hc)) (fun c hc => hwsOf c (hw2 c hc))
        hd hdws,
      parseU64_digits d hd hdig hval]
  · have hnc2 : ':' ∉ w3 ++ d ++ w4 := by
      intro hm
      simp only [List.mem_append] at hm
      rcases hm with (hm | hm) | hm
      · exact (hwc ':' (hw3 ':' hm)).1 rfl
      · exact hdColon ':' hm rfl
      · exact (hwc ':' (hw4 ':' hm)).1 rfl
    have hnl2 : ∀ c ∈ "MemTotal:".data ++ (w3 ++ d ++ w4), c ≠ '\n' := by
      intro c hc
      simp only [List.mem_append] at hc
      rcases hc with hc | (hc | hc) | hc
      · exact hkey c hc
      · exact (hwc c (hw3 c hc)).2.1
      · exact hdNl c hc
      · exact (hwc c (hw4 c hc)).2.1
    rw [lwm_get_value_single _ hnc2 hnl2]
    have hck2 : containsKB ((w3 ++ d) ++ w4) = false := by
      refine containsKB_of_no_k _ ?_
      intro c hc
      simp only [List.mem_append] at hc
      rcases hc with (hc | hc) | hc
      · exact (hwc c (hw3 c hc)).2.2.1
      · exact hdK c hc
      · exact (hwc c (hw4 c hc)).2.2.1
    simp only [hck2, Bool.false_eq_true, if_false]
    rw [trim_sandwich w3 d w4 (fun c hc => hwsOf c (hw3 c hc)) (fun c hc => hwsOf c (hw4 c hc))
        hd hdws,
      parseU64_digits d hd hdig hval]

set_option maxRecDepth 10000 in
/-- Witness for `C9_suffix_stripping` at the spec's round-trip example:
the line `"MemTotal:       16384000 kB"` extracts to `16384000`, as does
the same line without the suffix. -/
theorem C9_suffix_stripping_witness :
    "MemTotal:".data ++ ("       ".data ++ "16384000".data ++ " ".data ++ "kB".data) =
      "MemTotal:       16384000 kB".data ∧
    lwm_get_value ("MemTotal:".data ++ ("       ".data ++ "16384000".data ++ " ".data ++
      "kB".data)) "MemTotal:".data = some 16384000 ∧
    lwm_get_value ("MemTotal:".data ++ (" ".data ++ "16384000".data ++ [])) "MemTotal:".data =
      some 16384000 := by
  have h := C9_suffix_stripping "16384000".data "       ".data " ".data " ".data []
    (by decide) (by decide) (by decide) (by decide)
  have e : digitsVal "16384000".data = 16384000 := by decide
  rw [e] at h
  exact ⟨by decide, h.1, h.2⟩
